import Mathlib

/-!
Verification development for the row-comparison core of
`src/crates/polars-core/src/chunked_array/ops/compare_inner.rs`
and the `FunctionIR` equality/hash implementations of
`src/crates/polars-plan/src/plans/functions/mod.rs`.

Columns are shallowly embedded: a physical block is a list of optional
payloads (a slot is `none` when its null marker is set), and a chunked
array is the ordered list of its blocks.  The comparator objects of
`compare_inner.rs` become structures holding the pairwise comparison
functions, and the factory `into_total_eq_inner` / `into_total_ord_inner`
dispatch on the layout classification exactly as the source does.
-/

/-- One physical block of a column: slot `i` holds `some v` when the row is
valued and `none` when the null marker is set. -/
abbrev Block (α : Type) := List (Option α)

/-- A chunked array: the ordered, immutable blocks of one column. -/
structure ChunkedArray (α : Type) where
  chunks : List (Block α)

/-- Modelled from the spec: `StaticArray::get_unchecked` (§4.2) — direct
indexing into a single block, returning `some payload` or `none`.
Out-of-range access is undefined behavior in the source; the model
returns `none` there. -/
def arrGet {α : Type} (arr : Block α) (i : Nat) : Option α :=
  (arr[i]?).join

/-- Modelled from the spec: the bare-payload accessor used by the NoNull
fast path (`value_unchecked`, §4.3); reads the payload ignoring the null
marker.  For a null or out-of-range slot the physical content is
unspecified in the source; the model returns `default`. -/
def arrValue {α : Type} [Inhabited α] (arr : Block α) (i : Nat) : α :=
  (arrGet arr i).getD default

/-- Modelled from the spec: multi-block index translation (§4.2) — resolve
a logical row index to (block, offset) by a monotonic prefix walk over
block lengths. -/
def chunkGet {α : Type} : List (Block α) → Nat → Option α
  | [], _ => none
  | c :: cs, i => if i < c.length then arrGet c i else chunkGet cs (i - c.length)

/-- Modelled from the spec: `ChunkedArray::get_unchecked` (§4.2). -/
def caGet {α : Type} (ca : ChunkedArray α) (i : Nat) : Option α :=
  chunkGet ca.chunks i

/-- Modelled from the spec: `ChunkedArray::value_unchecked` — bare payload
at a logical index, used by the NoNull fast path over multiple blocks. -/
def caValue {α : Type} [Inhabited α] (ca : ChunkedArray α) (i : Nat) : α :=
  (caGet ca i).getD default

/-- Logical length N of the column: the sum of its block lengths. -/
def caLen {α : Type} (ca : ChunkedArray α) : Nat :=
  (ca.chunks.map List.length).sum

/-- Modelled from the spec: presence of any null marker (§4.1). -/
def hasNulls {α : Type} (ca : ChunkedArray α) : Bool :=
  ca.chunks.any (fun c => c.any Option.isNone)

/-- The four canonical physical shapes (`ChunkedArrayLayout`, §3). -/
inductive ChunkedArrayLayout (α : Type) where
  | singleNoNull (arr : Block α)
  | single (arr : Block α)
  | multiNoNull (ca : ChunkedArray α)
  | multi (ca : ChunkedArray α)

/-- Modelled from the spec: the Layout Classifier (§4.1) — one block vs
several, and presence of any null marker. -/
def ChunkedArray.layout {α : Type} (ca : ChunkedArray α) : ChunkedArrayLayout α :=
  match ca.chunks with
  | [arr] =>
      if arr.any Option.isNone then ChunkedArrayLayout.single arr
      else ChunkedArrayLayout.singleNoNull arr
  | _ =>
      if hasNulls ca then ChunkedArrayLayout.multi ca
      else ChunkedArrayLayout.multiNoNull ca

/-- Modelled from the spec: total equality on `Option` items (§4.4) —
`TotalEq for Option<T>` lives in polars-utils, outside the given sources:
null≡null, null never equal to a present value, present payloads equal
iff the domain total-equality relation holds. -/
def optionTotEq {α : Type} (tot_eq : α → α → Bool) : Option α → Option α → Bool
  | none, none => true
  | none, some _ => false
  | some _, none => false
  | some l, some r => tot_eq l r

/-- `NullOrderCmp for Option<T>` (compare_inner.rs lines 24-45): the null
branch of the Order Engine, combining the domain total order with the
per-call null placement policy. -/
def nullOrderCmp {α : Type} (tot_cmp : α → α → Ordering) :
    Option α → Option α → Bool → Ordering
  | none, none, _ => Ordering.eq
  | none, some _, nulls_last => if nulls_last then Ordering.gt else Ordering.lt
  | some _, none, nulls_last => if nulls_last then Ordering.lt else Ordering.gt
  | some l, some r, _ => tot_cmp l r

/-- An equality comparator object (`dyn TotalEqInner`). -/
structure TotalEqInner where
  eq_element_unchecked : Nat → Nat → Bool

/-- An ordering comparator object (`dyn TotalOrdInner`). -/
structure TotalOrdInner where
  cmp_element_unchecked : Nat → Nat → Bool → Ordering

/-- The blanket `TotalEqInner` impl (compare_inner.rs lines 92-101) over a
nullable accessor: fetch both items and apply `Option` total equality. -/
def mkEqInner {α : Type} (tot_eq : α → α → Bool) (get : Nat → Option α) : TotalEqInner :=
  ⟨fun idx_a idx_b => optionTotEq tot_eq (get idx_a) (get idx_b)⟩

/-- The blanket `TotalEqInner` impl instantiated at a `NonNull` accessor
(compare_inner.rs lines 14-18, 72-84): bare payloads, domain equality. -/
def mkEqInnerNoNull {α : Type} (tot_eq : α → α → Bool) (value : Nat → α) : TotalEqInner :=
  ⟨fun idx_a idx_b => tot_eq (value idx_a) (value idx_b)⟩

/-- The blanket `TotalOrdInner` impl (compare_inner.rs lines 148-164) over
a nullable accessor: fetch both items, apply `null_order_cmp`. -/
def mkOrdInner {α : Type} (tot_cmp : α → α → Ordering) (get : Nat → Option α) : TotalOrdInner :=
  ⟨fun idx_a idx_b nulls_last => nullOrderCmp tot_cmp (get idx_a) (get idx_b) nulls_last⟩

/-- `NullOrderCmp for NonNull<T>` composed with the `NonNull` accessor
(compare_inner.rs lines 47-51, 72-84): the nulls_last argument is ignored
and the domain total order is applied to the bare payloads. -/
def mkOrdInnerNoNull {α : Type} (tot_cmp : α → α → Ordering) (value : Nat → α) : TotalOrdInner :=
  ⟨fun idx_a idx_b _nulls_last => tot_cmp (value idx_a) (value idx_b)⟩

/-- The equality factory `IntoTotalEqInner for &ChunkedArray<T>`
(compare_inner.rs lines 122-135): dispatch on the layout classification. -/
def intoTotalEqInner {α : Type} [Inhabited α] (tot_eq : α → α → Bool)
    (ca : ChunkedArray α) : TotalEqInner :=
  match ca.layout with
  | ChunkedArrayLayout.singleNoNull arr => mkEqInnerNoNull tot_eq (arrValue arr)
  | ChunkedArrayLayout.single arr => mkEqInner tot_eq (arrGet arr)
  | ChunkedArrayLayout.multiNoNull c => mkEqInnerNoNull tot_eq (caValue c)
  | ChunkedArrayLayout.multi c => mkEqInner tot_eq (caGet c)

/-- The ordering factory `IntoTotalOrdInner for &ChunkedArray<T>`
(compare_inner.rs lines 184-197): dispatch on the layout classification. -/
def intoTotalOrdInner {α : Type} [Inhabited α] (tot_cmp : α → α → Ordering)
    (ca : ChunkedArray α) : TotalOrdInner :=
  match ca.layout with
  | ChunkedArrayLayout.singleNoNull arr => mkOrdInnerNoNull tot_cmp (arrValue arr)
  | ChunkedArrayLayout.single arr => mkOrdInner tot_cmp (arrGet arr)
  | ChunkedArrayLayout.multiNoNull c => mkOrdInnerNoNull tot_cmp (caValue c)
  | ChunkedArrayLayout.multi c => mkOrdInner tot_cmp (caGet c)

/-- The all-null column representation (`NullChunked`); only the logical
length is relevant to comparison. -/
structure NullChunked where
  length : Nat

/-- `TotalEqInner for &NullChunked` (compare_inner.rs lines 103-107,
115-119): always true. -/
def nullIntoTotalEqInner (_nc : NullChunked) : TotalEqInner :=
  ⟨fun _idx_a _idx_b => true⟩

/-- `TotalOrdInner for &NullChunked` (compare_inner.rs lines 166-176,
199-203): always Equal. -/
def nullIntoTotalOrdInner (_nc : NullChunked) : TotalOrdInner :=
  ⟨fun _idx_a _idx_b _nulls_last => Ordering.eq⟩

/-- Modelled from the spec: character comparison underlying lexicographic
string order (`TotalOrd for str` lives in polars-utils, outside the given
sources). -/
def charCmp (a b : Char) : Ordering :=
  if a.toNat < b.toNat then Ordering.lt
  else if b.toNat < a.toNat then Ordering.gt
  else Ordering.eq

/-- Modelled from the spec: lexicographic comparison of character lists. -/
def lexCmp : List Char → List Char → Ordering
  | [], [] => Ordering.eq
  | [], _ :: _ => Ordering.lt
  | _ :: _, [] => Ordering.gt
  | a :: as, b :: bs =>
      match charCmp a b with
      | Ordering.eq => lexCmp as bs
      | o => o

/-- Modelled from the spec: the ordinary lexicographic total order on
strings used by the Categorical Lexical Adapter (§4.6). -/
def strTotCmp (a b : String) : Ordering :=
  lexCmp a.data b.data

/-- A dictionary-encoded column (`CategoricalChunked`): physical codes,
the shared code-to-string `CategoricalMapping` (`cat_to_str_unchecked`
modelled from the spec as a total lookup, §4.6), and the
`uses_lexical_ordering` flag (modelled from the spec). -/
structure CategoricalChunked (α : Type) where
  phys : ChunkedArray α
  mapping : α → String
  lexical : Bool

/-- `GetInner for LexicalCategorical` (compare_inner.rs lines 206-218):
resolve the row's code, then look its string up in the shared mapping;
a null row stays null. -/
def lexicalCategoricalGet {α : Type} (cc : CategoricalChunked α) (idx : Nat) : Option String :=
  (caGet cc.phys idx).map cc.mapping

/-- `IntoTotalOrdInner for &CategoricalChunked<T>` (compare_inner.rs lines
220-232): with lexical ordering, the Order Engine runs over the string
accessor; otherwise it falls back to the plain code-based comparator. -/
def catIntoTotalOrdInner {α : Type} [Inhabited α] (tot_cmp : α → α → Ordering)
    (cc : CategoricalChunked α) : TotalOrdInner :=
  if cc.lexical then mkOrdInner strTotCmp (lexicalCategoricalGet cc)
  else intoTotalOrdInner tot_cmp cc.phys

/-- Model of `FunctionIR` (functions/mod.rs lines 29-74).  Payload types
from outside the given sources are modelled structurally: `PlSmallStr` as
`String`, `ScanSources` as a list of paths, `Arc<[PlSmallStr]>` as a list
of names, `IdxSize` as `Nat`; opaque payloads (`Arc<dyn DataFrameUdf>`,
`UdfSchema`, `FileScanIR`, `CloudOptions`, `UnpivotArgsIR`, the skipped
`CachedSchema` cache) as abstract numeric identities.  `udf` models the
`Opaque` variant and `pythonUdf` models `OpaquePython`. -/
inductive FunctionIR where
  | rowIndex (name : String) (offset : Option Nat) (schema : Nat)
  | pythonUdf (function : Nat)
  | fastCount (sources : List String) (scan_type : Nat)
      (cloud_options : Option Nat) (aliasName : Option String)
  | unnest (columns : List String)
  | rechunk
  | explode (columns : List String) (schema : Nat)
  | unpivot (args : Nat) (schema : Nat)
  | udf (function : Nat) (schema : Option Nat) ( predicate_pd : Bool)
      (projection_pd : Bool) (streamable : Bool) (fmt_str : String)

/-- `impl PartialEq for FunctionIR` (functions/mod.rs lines 78-98):
Rechunk matches Rechunk; FastCount compares sources only; Explode and
Unpivot compare their arguments; RowIndex compares the name only; every
other pairing, including a variant against itself, falls through to
false. -/
def beqFunctionIR : FunctionIR → FunctionIR → Bool
  | FunctionIR.rechunk, FunctionIR.rechunk => true
  | FunctionIR.fastCount srcs_l _ _ _, FunctionIR.fastCount srcs_r _ _ _ => srcs_l == srcs_r
  | FunctionIR.explode l _, FunctionIR.explode r _ => l == r
  | FunctionIR.unpivot l _, FunctionIR.unpivot r _ => l == r
  | FunctionIR.rowIndex l _ _, FunctionIR.rowIndex r _ _ => l == r
  | _, _ => false

/-- One value written to the hasher state. -/
inductive HashTok where
  | n (v : Nat)
  | s (v : String)
  | onat (v : Option Nat)
  | ostr (v : Option String)
  | ls (v : List String)
deriving DecidableEq

/-- `impl Hash for FunctionIR` (functions/mod.rs lines 100-133), modelled
as the exact sequence of values written to the hasher: the discriminant
first, then the hashed fields of the variant.  Two values collide for
every hasher iff their written sequences are equal. -/
def hashFunctionIR : FunctionIR → List HashTok
  | FunctionIR.rowIndex name offset _ => [HashTok.n 0, HashTok.s name, HashTok.onat offset]
  | FunctionIR.pythonUdf _ => [HashTok.n 1]
  | FunctionIR.fastCount sources scan_type cloud_options aliasName =>
      [HashTok.n 2, HashTok.ls sources, HashTok.n scan_type,
       HashTok.onat cloud_options, HashTok.ostr aliasName]
  | FunctionIR.unnest columns => [HashTok.n 3, HashTok.ls columns]
  | FunctionIR.rechunk => [HashTok.n 4]
  | FunctionIR.explode columns _ => [HashTok.n 5, HashTok.ls columns]
  | FunctionIR.unpivot args _ => [HashTok.n 6, HashTok.n args]
  | FunctionIR.udf _ _ _ _ _ fmt_str => [HashTok.n 7, HashTok.s fmt_str]

/-- Whether the variant has a structural arm in `PartialEq` (used to state
the amended reflexivity property). -/
def hasEqArm : FunctionIR → Bool
  | FunctionIR.rechunk => true
  | FunctionIR.fastCount _ _ _ _ => true
  | FunctionIR.explode _ _ => true
  | FunctionIR.unpivot _ _ => true
  | FunctionIR.rowIndex _ _ _ => true
  | FunctionIR.pythonUdf _ => false
  | FunctionIR.unnest _ => false
  | FunctionIR.udf _ _ _ _ _ _ => false

/-- Modelled from the spec: the domain total order for a primitive
integer payload (used to instantiate witnesses). -/
def natTotCmp (a b : Nat) : Ordering :=
  if a < b then Ordering.lt else if b < a then Ordering.gt else Ordering.eq

/-- Modelled from the spec: the domain total equality for a primitive
integer payload (used to instantiate witnesses). -/
def natTotEq (a b : Nat) : Bool := a == b

/-- Witness column for the spec §8 null-placement example [null, 5, null, 3]. -/
def caW : ChunkedArray Nat := ⟨[[none, some 5, none, some 3]]⟩

/-- Witness column with a null at row 0 and the value 5 at row 1. -/
def caC1 : ChunkedArray Nat := ⟨[[none, some 5]]⟩

/-- Null-free witness column [3, 1]. -/
def caC4 : ChunkedArray Nat := ⟨[[some 3, some 1]]⟩

/-- Witness values for the multi-block equivalence claim. -/
def valsC5 : List (Option Nat) := [some 1, some 2, none, some 4]

/-- The same values split into three blocks of varying size. -/
def chunksC5 : List (Block Nat) := [[some 1], [some 2, none], [some 4]]

/-- Witness accessor: rows 0 and 1 null, row i holds i from 2 on. -/
def gW : Nat → Option Nat := fun i => if i < 2 then none else some i

/-- The dictionary {0 ↦ "b", 1 ↦ "a"} of the categorical example. -/
def catMapW : Nat → String := fun c => if c = 0 then "b" else "a"

/-- Categorical witness column with codes [0, 1], code-based ordering. -/
def ccCode : CategoricalChunked Nat := ⟨⟨[[some 0, some 1]]⟩, catMapW, false⟩

/-- Categorical witness column with codes [0, 1], lexical ordering. -/
def ccLex : CategoricalChunked Nat := ⟨⟨[[some 0, some 1]]⟩, catMapW, true⟩

/-- Categorical witness column with one code, lexical ordering. -/
def ccW8 : CategoricalChunked Nat := ⟨⟨[[some 0]]⟩, catMapW, true⟩

/-- A concrete value of the modelled `Opaque` variant. -/
def udfW : FunctionIR := FunctionIR.udf 0 none false false false "f"

theorem chunkGet_flatten {α : Type} (chunks : List (Block α)) (i : Nat) :
    chunkGet chunks i = arrGet chunks.flatten i := by
  induction chunks generalizing i with
  | nil => simp [chunkGet, arrGet]
  | cons c cs ih =>
    simp only [chunkGet, List.flatten_cons]
    by_cases h : i < c.length
    · simp [h, arrGet, List.getElem?_append_left h]
    · have h' : c.length ≤ i := Nat.le_of_not_lt h
      simp [h, ih, arrGet, List.getElem?_append_right h']

theorem chunkGet_singleton {α : Type} (arr : Block α) (i : Nat) :
    chunkGet [arr] i = arrGet arr i := by
  by_cases h : i < arr.length
  · simp [chunkGet, h]
  · rw [chunkGet, if_neg h, chunkGet, arrGet, List.getElem?_eq_none (Nat.le_of_not_lt h)]
    rfl

theorem caLen_eq_length_flatten {α : Type} (ca : ChunkedArray α) :
    caLen ca = ca.chunks.flatten.length := by
  simp [caLen]

theorem any_isNone_flatten {α : Type} (chunks : List (Block α)) :
    chunks.any (fun c => c.any Option.isNone) = chunks.flatten.any Option.isNone := by
  induction chunks with
  | nil => simp
  | cons c cs ih => simp only [List.any_cons, List.flatten_cons, List.any_append, ih]

theorem arrGet_eq_some {α : Type} [Inhabited α] (arr : Block α)
    (hnn : arr.any Option.isNone = false) (i : Nat) (hi : i < arr.length) :
    arrGet arr i = some (arrValue arr i) := by
  have hnn' := List.any_eq_false.mp hnn
  have hget : arr[i]? = some arr[i] := List.getElem?_eq_getElem hi
  cases harr : arr[i] with
  | none => exact absurd (by simp [harr]) (hnn' arr[i] (List.getElem_mem hi))
  | some v => simp [arrGet, arrValue, hget, harr]

theorem caGet_eq_some {α : Type} [Inhabited α] (ca : ChunkedArray α)
    (hnn : hasNulls ca = false) (i : Nat) (hi : i < caLen ca) :
    caGet ca i = some (caValue ca i) := by
  have h1 : caGet ca i = arrGet ca.chunks.flatten i := chunkGet_flatten ca.chunks i
  have h2 : ca.chunks.flatten.any Option.isNone = false := by
    rw [← any_isNone_flatten]
    simpa [hasNulls] using hnn
  have h3 : i < ca.chunks.flatten.length := by
    rw [← caLen_eq_length_flatten]; exact hi
  rw [caValue, h1, arrGet_eq_some _ h2 i h3]
  simp [arrValue, h1]

theorem intoOrd_spec {α : Type} [Inhabited α] (tot_cmp : α → α → Ordering)
    (ca : ChunkedArray α) (i j : Nat) (hi : i < caLen ca) (hj : j < caLen ca) (b : Bool) :
    (intoTotalOrdInner tot_cmp ca).cmp_element_unchecked i j b =
      nullOrderCmp tot_cmp (caGet ca i) (caGet ca j) b := by
  rcases ca with ⟨chunks⟩
  match chunks with
  | [] => simp [caLen] at hi
  | [arr] =>
    by_cases hn : arr.any Option.isNone = true
    · simp [intoTotalOrdInner, ChunkedArray.layout, hn, mkOrdInner, caGet, chunkGet_singleton]
    · have hn' : arr.any Option.isNone = false := Bool.eq_false_iff.mpr hn
      have hi' : i < arr.length := by simpa [caLen] using hi
      have hj' : j < arr.length := by simpa [caLen] using hj
      simp only [intoTotalOrdInner, ChunkedArray.layout, hn', mkOrdInnerNoNull,
        Bool.false_eq_true, if_false, caGet, chunkGet_singleton,
        arrGet_eq_some arr hn' i hi', arrGet_eq_some arr hn' j hj', nullOrderCmp]
  | c1 :: c2 :: cs =>
    by_cases hn : hasNulls ⟨c1 :: c2 :: cs⟩ = true
    · simp [intoTotalOrdInner, ChunkedArray.layout, hn, mkOrdInner]
    · have hn' : hasNulls (ChunkedArray.mk (c1 :: c2 :: cs)) = false := Bool.eq_false_iff.mpr hn
      rw [intoTotalOrdInner]
      simp only [ChunkedArray.layout, hn', Bool.false_eq_true, if_false, mkOrdInnerNoNull,
        caGet_eq_some _ hn' i hi, caGet_eq_some _ hn' j hj, nullOrderCmp]

theorem intoEq_spec {α : Type} [Inhabited α] (tot_eq : α → α → Bool)
    (ca : ChunkedArray α) (i j : Nat) (hi : i < caLen ca) (hj : j < caLen ca) :
    (intoTotalEqInner tot_eq ca).eq_element_unchecked i j =
      optionTotEq tot_eq (caGet ca i) (caGet ca j) := by
  rcases ca with ⟨chunks⟩
  match chunks with
  | [] => simp [caLen] at hi
  | [arr] =>
    by_cases hn : arr.any Option.isNone = true
    · simp [intoTotalEqInner, ChunkedArray.layout, hn, mkEqInner, caGet, chunkGet_singleton]
    · have hn' : arr.any Option.isNone = false := Bool.eq_false_iff.mpr hn
      have hi' : i < arr.length := by simpa [caLen] using hi
      have hj' : j < arr.length := by simpa [caLen] using hj
      simp only [intoTotalEqInner, ChunkedArray.layout, hn', mkEqInnerNoNull,
        Bool.false_eq_true, if_false, caGet, chunkGet_singleton,
        arrGet_eq_some arr hn' i hi', arrGet_eq_some arr hn' j hj', optionTotEq]
  | c1 :: c2 :: cs =>
    by_cases hn : hasNulls ⟨c1 :: c2 :: cs⟩ = true
    · simp [intoTotalEqInner, ChunkedArray.layout, hn, mkEqInner]
    · have hn' : hasNulls (ChunkedArray.mk (c1 :: c2 :: cs)) = false := Bool.eq_false_iff.mpr hn
      rw [intoTotalEqInner]
      simp only [ChunkedArray.layout, hn', Bool.false_eq_true, if_false, mkEqInnerNoNull,
        caGet_eq_some _ hn' i hi, caGet_eq_some _ hn' j hj, optionTotEq]

theorem charCmp_refl (c : Char) : charCmp c c = Ordering.eq := by
  simp [charCmp]

theorem lexCmp_refl (l : List Char) : lexCmp l l = Ordering.eq := by
  induction l with
  | nil => rfl
  | cons c cs ih => simp [lexCmp, charCmp_refl, ih]

theorem strTotCmp_refl (s : String) : strTotCmp s s = Ordering.eq :=
  lexCmp_refl s.data

/-- Claim C1 counterexample: over the column [null, 5], the null at index
0 against the present 5 at index 1 with nulls_last = true compares
Greater, not Less as the claim states. -/
theorem C1_counterexample :
    (intoTotalOrdInner natTotCmp caC1).cmp_element_unchecked 0 1 true = Ordering.gt ∧
    ¬ (intoTotalOrdInner natTotCmp caC1).cmp_element_unchecked 0 1 true = Ordering.lt := by
  decide

/-- Claim C1 (amended): for every comparator built over a column and every
pair of valid indices, a null element at idx_a against a present element
at idx_b makes compare return Greater when nulls_last is true and Less
when it is false; the present/null case returns the mirrored result; and
null/null returns Equal. -/
theorem C1_null_branch_amended {α : Type} [Inhabited α] (tot_cmp : α → α → Ordering)
    (ca : ChunkedArray α) (i j : Nat) (b : Bool)
    (hi : i < caLen ca) (hj : j < caLen ca) :
    (caGet ca i = none → caGet ca j ≠ none →
      (intoTotalOrdInner tot_cmp ca).cmp_element_unchecked i j b =
        if b then Ordering.gt else Ordering.lt) ∧
    (caGet ca i ≠ none → caGet ca j = none →
      (intoTotalOrdInner tot_cmp ca).cmp_element_unchecked i j b =
        if b then Ordering.lt else Ordering.gt) ∧
    (caGet ca i = none → caGet ca j = none →
      (intoTotalOrdInner tot_cmp ca).cmp_element_unchecked i j b = Ordering.eq) := by
  rw [intoOrd_spec tot_cmp ca i j hi hj b]
  refine ⟨fun h1 h2 => ?_, fun h1 h2 => ?_, fun h1 h2 => ?_⟩
  · cases hj' : caGet ca j with
    | none => exact absurd hj' h2
    | some v => rw [h1]; rfl
  · cases hi' : caGet ca i with
    | none => exact absurd hi' h1
    | some v => rw [h2]; rfl
  · rw [h1, h2]; rfl

/-- Claim C1 witness: the amended null branch evaluated on the concrete
column [null, 5]. -/
theorem C1_witness :
    (intoTotalOrdInner natTotCmp caC1).cmp_element_unchecked 0 1 true = Ordering.gt ∧
    (intoTotalOrdInner natTotCmp caC1).cmp_element_unchecked 1 0 true = Ordering.lt ∧
    (intoTotalOrdInner natTotCmp caC1).cmp_element_unchecked 0 0 false = Ordering.eq := by
  have h1 := C1_null_branch_amended natTotCmp caC1 0 1 true (by decide) (by decide)
  have h2 := C1_null_branch_amended natTotCmp caC1 1 0 true (by decide) (by decide)
  have h3 := C1_null_branch_amended natTotCmp caC1 0 0 false (by decide) (by decide)
  refine ⟨?_, ?_, ?_⟩
  · simpa using h1.1 (by decide) (by decide)
  · simpa using h2.2.1 (by decide) (by decide)
  · simpa using h3.2.2 (by decide) (by decide)

/-- Claim C2: for every comparator and every pairing of a null-row index
against a present-row index (both valid), compare with nulls_last = true
orders the present row before (Less than) the null row, nulls_last =
false reverses that relation, and two null rows compare Equal under
either policy value. -/
theorem C2_null_placement {α : Type} [Inhabited α] (tot_cmp : α → α → Ordering)
    (ca : ChunkedArray α) (i j : Nat) (hi : i < caLen ca) (hj : j < caLen ca) :
    (caGet ca i ≠ none → caGet ca j = none →
      (intoTotalOrdInner tot_cmp ca).cmp_element_unchecked i j true = Ordering.lt ∧
      (intoTotalOrdInner tot_cmp ca).cmp_element_unchecked i j false = Ordering.gt) ∧
    (caGet ca i = none → caGet ca j ≠ none →
      (intoTotalOrdInner tot_cmp ca).cmp_element_unchecked i j true = Ordering.gt ∧
      (intoTotalOrdInner tot_cmp ca).cmp_element_unchecked i j false = Ordering.lt) ∧
    (caGet ca i = none → caGet ca j = none → ∀ b : Bool,
      (intoTotalOrdInner tot_cmp ca).cmp_element_unchecked i j b = Ordering.eq) := by
  refine ⟨fun h1 h2 => ?_, fun h1 h2 => ?_, fun h1 h2 b => ?_⟩
  · cases hi' : caGet ca i with
    | none => exact absurd hi' h1
    | some v =>
      constructor <;> rw [intoOrd_spec tot_cmp ca i j hi hj _, hi', h2] <;> rfl
  · cases hj' : caGet ca j with
    | none => exact absurd hj' h2
    | some v =>
      constructor <;> rw [intoOrd_spec tot_cmp ca i j hi hj _, h1, hj'] <;> rfl
  · rw [intoOrd_spec tot_cmp ca i j hi hj b, h1, h2]; rfl

/-- Claim C2 witness: null placement evaluated on the spec §8 column
[null, 5, null, 3]. -/
theorem C2_witness :
    (intoTotalOrdInner natTotCmp caW).cmp_element_unchecked 1 0 true = Ordering.lt ∧
    (intoTotalOrdInner natTotCmp caW).cmp_element_unchecked 0 3 false = Ordering.lt ∧
    (intoTotalOrdInner natTotCmp caW).cmp_element_unchecked 0 2 true = Ordering.eq := by
  have h1 := C2_null_placement natTotCmp caW 1 0 (by decide) (by decide)
  have h2 := C2_null_placement natTotCmp caW 0 3 (by decide) (by decide)
  have h3 := C2_null_placement natTotCmp caW 0 2 (by decide) (by decide)
  exact ⟨(h1.1 (by decide) (by decide)).1,
         (h2.2.1 (by decide) (by decide)).2,
         h3.2.2 (by decide) (by decide) true⟩

/-- Claim C3: over the dictionary {0 ↦ "b", 1 ↦ "a"} with codes [0, 1],
the comparator built without lexical ordering returns Less for
compare(0, 1, b) (integer codes 0 < 1) while the comparator built with
lexical ordering returns Greater ("b" > "a"), for either value of b, and
the two modes disagree on this example. -/
theorem C3_categorical_lexical_vs_code (b : Bool) :
    (catIntoTotalOrdInner natTotCmp ccCode).cmp_element_unchecked 0 1 b = Ordering.lt ∧
    (catIntoTotalOrdInner natTotCmp ccLex).cmp_element_unchecked 0 1 b = Ordering.gt ∧
    (catIntoTotalOrdInner natTotCmp ccCode).cmp_element_unchecked 0 1 b ≠
      (catIntoTotalOrdInner natTotCmp ccLex).cmp_element_unchecked 0 1 b := by
  cases b <;> exact ⟨by decide, by decide, by decide⟩

/-- Claim C4: for a column with no null rows and valid indices, the
factory-built comparator agrees with the nullable comparator's
present/present branch (the domain total order over the two payloads)
and is independent of the nulls_last argument. -/
theorem C4_nonull_fast_path {α : Type} [Inhabited α] (tot_cmp : α → α → Ordering)
    (ca : ChunkedArray α) (hnn : hasNulls ca = false) (i j : Nat)
    (hi : i < caLen ca) (hj : j < caLen ca) (b : Bool) :
    (intoTotalOrdInner tot_cmp ca).cmp_element_unchecked i j b =
      nullOrderCmp tot_cmp (caGet ca i) (caGet ca j) b ∧
    (intoTotalOrdInner tot_cmp ca).cmp_element_unchecked i j b =
      tot_cmp (caValue ca i) (caValue ca j) ∧
    (intoTotalOrdInner tot_cmp ca).cmp_element_unchecked i j true =
      (intoTotalOrdInner tot_cmp ca).cmp_element_unchecked i j false := by
  have hgi := caGet_eq_some ca hnn i hi
  have hgj := caGet_eq_some ca hnn j hj
  refine ⟨intoOrd_spec tot_cmp ca i j hi hj b, ?_, ?_⟩
  · rw [intoOrd_spec tot_cmp ca i j hi hj b, hgi, hgj]; rfl
  · rw [intoOrd_spec tot_cmp ca i j hi hj true,
        intoOrd_spec tot_cmp ca i j hi hj false, hgi, hgj]; rfl

/-- Claim C4 witness: the fast path evaluated on the null-free column
[3, 1]. -/
theorem C4_witness :
    (intoTotalOrdInner natTotCmp caC4).cmp_element_unchecked 0 1 true =
      nullOrderCmp natTotCmp (caGet caC4 0) (caGet caC4 1) true ∧
    (intoTotalOrdInner natTotCmp caC4).cmp_element_unchecked 0 1 true =
      natTotCmp (caValue caC4 0) (caValue caC4 1) ∧
    (intoTotalOrdInner natTotCmp caC4).cmp_element_unchecked 0 1 true =
      (intoTotalOrdInner natTotCmp caC4).cmp_element_unchecked 0 1 false :=
  C4_nonull_fast_path natTotCmp caC4 (by decide) 0 1 (by decide) (by decide) true

/-- Claim C5: for every sequence of logical row values, the comparators
built over the values stored as one block and over the same values split
into several blocks return identical equal and compare results for every
valid index pair and both values of nulls_last. -/
theorem C5_multi_block_equivalence {α : Type} [Inhabited α]
    (tot_eq : α → α → Bool) (tot_cmp : α → α → Ordering)
    (vals : List (Option α)) (chunks : List (Block α))
    (hsplit : chunks.flatten = vals) (i j : Nat)
    (hi : i < vals.length) (hj : j < vals.length) (b : Bool) :
    (intoTotalEqInner tot_eq ⟨[vals]⟩).eq_element_unchecked i j =
      (intoTotalEqInner tot_eq ⟨chunks⟩).eq_element_unchecked i j ∧
    (intoTotalOrdInner tot_cmp ⟨[vals]⟩).cmp_element_unchecked i j b =
      (intoTotalOrdInner tot_cmp ⟨chunks⟩).cmp_element_unchecked i j b := by
  have hl1 : caLen (ChunkedArray.mk [vals]) = vals.length := by simp [caLen]
  have hl2 : caLen (ChunkedArray.mk chunks) = vals.length := by
    rw [caLen_eq_length_flatten]; simp [hsplit]
  have h1i : i < caLen (ChunkedArray.mk [vals]) := by rw [hl1]; exact hi
  have h1j : j < caLen (ChunkedArray.mk [vals]) := by rw [hl1]; exact hj
  have h2i : i < caLen (ChunkedArray.mk chunks) := by rw [hl2]; exact hi
  have h2j : j < caLen (ChunkedArray.mk chunks) := by rw [hl2]; exact hj
  have hg : ∀ k, caGet (ChunkedArray.mk [vals]) k = caGet (ChunkedArray.mk chunks) k := by
    intro k
    show chunkGet [vals] k = chunkGet chunks k
    rw [chunkGet_singleton, chunkGet_flatten, hsplit]
  constructor
  · rw [intoEq_spec tot_eq _ i j h1i h1j, intoEq_spec tot_eq _ i j h2i h2j, hg i, hg j]
  · rw [intoOrd_spec tot_cmp _ i j h1i h1j b, intoOrd_spec tot_cmp _ i j h2i h2j b,
        hg i, hg j]

/-- Claim C5 witness: the single-block column [1, 2, null, 4] against the
same values split into blocks [1], [2, null], [4]. -/
theorem C5_witness :
    (intoTotalEqInner natTotEq ⟨[valsC5]⟩).eq_element_unchecked 1 2 =
      (intoTotalEqInner natTotEq ⟨chunksC5⟩).eq_element_unchecked 1 2 ∧
    (intoTotalOrdInner natTotCmp ⟨[valsC5]⟩).cmp_element_unchecked 1 2 true =
      (intoTotalOrdInner natTotCmp ⟨chunksC5⟩).cmp_element_unchecked 1 2 true :=
  C5_multi_block_equivalence natTotEq natTotCmp valsC5 chunksC5 (by decide)
    1 2 (by decide) (by decide) true

/-- Claim C6: the all-null column comparators return true for equal and
Equal for compare, for every pair of in-range indices and both values of
the nulls_last argument. -/
theorem C6_all_null (nc : NullChunked) (i j : Nat) (b : Bool)
    (hi : i < nc.length) (hj : j < nc.length) :
    (nullIntoTotalEqInner nc).eq_element_unchecked i j = true ∧
    (nullIntoTotalOrdInner nc).cmp_element_unchecked i j b = Ordering.eq :=
  ⟨rfl, rfl⟩

/-- Claim C6 witness: the degenerate all-null column of length 5. -/
theorem C6_witness :
    (nullIntoTotalEqInner ⟨5⟩).eq_element_unchecked 0 4 = true ∧
    (nullIntoTotalOrdInner ⟨5⟩).cmp_element_unchecked 0 4 false = Ordering.eq :=
  C6_all_null ⟨5⟩ 0 4 false (by decide) (by decide)

/-- Claim C7: the Equality Engine over a nullable accessor returns true
when both rows are null, false when exactly one row is null, and for two
present rows returns true exactly when the domain total-equality relation
holds on the payloads. -/
theorem C7_equality_engine {α : Type} (tot_eq : α → α → Bool)
    (get : Nat → Option α) (i j : Nat) :
    (get i = none → get j = none →
      (mkEqInner tot_eq get).eq_element_unchecked i j = true) ∧
    (get i = none → get j ≠ none →
      (mkEqInner tot_eq get).eq_element_unchecked i j = false) ∧
    (get i ≠ none → get j = none →
      (mkEqInner tot_eq get).eq_element_unchecked i j = false) ∧
    (∀ x y, get i = some x → get j = some y →
      ((mkEqInner tot_eq get).eq_element_unchecked i j = true ↔ tot_eq x y = true)) := by
  refine ⟨fun h1 h2 => ?_, fun h1 h2 => ?_, fun h1 h2 => ?_, fun x y h1 h2 => ?_⟩
  · simp [mkEqInner, h1, h2, optionTotEq]
  · cases hj' : get j with
    | none => exact absurd hj' h2
    | some v => simp [mkEqInner, h1, hj', optionTotEq]
  · cases hi' : get i with
    | none => exact absurd hi' h1
    | some v => simp [mkEqInner, hi', h2, optionTotEq]
  · simp [mkEqInner, h1, h2, optionTotEq]

/-- Claim C7 witness: the Equality Engine evaluated on a concrete
accessor whose rows 0 and 1 are null and whose row i holds i from 2 on. -/
theorem C7_witness :
    (mkEqInner natTotEq gW).eq_element_unchecked 0 1 = true ∧
    (mkEqInner natTotEq gW).eq_element_unchecked 0 2 = false ∧
    (mkEqInner natTotEq gW).eq_element_unchecked 2 0 = false ∧
    ((mkEqInner natTotEq gW).eq_element_unchecked 2 3 = true ↔ natTotEq 2 3 = true) := by
  refine ⟨?_, ?_, ?_, ?_⟩
  · exact (C7_equality_engine natTotEq gW 0 1).1 (by decide) (by decide)
  · exact (C7_equality_engine natTotEq gW 0 2).2.1 (by decide) (by decide)
  · exact (C7_equality_engine natTotEq gW 2 0).2.2.1 (by decide) (by decide)
  · exact (C7_equality_engine natTotEq gW 2 3).2.2.2 2 3 (by decide) (by decide)

/-- Claim C8: every comparator built by the factory is reflexive, given
that the domain relations are: for every valid index i, equal(i, i) is
true (also on null rows) and compare(i, i, b) is Equal for both values of
b, over plain columns, categorical columns and the all-null column. -/
theorem C8_reflexivity {α : Type} [Inhabited α] (tot_eq : α → α → Bool)
    (tot_cmp : α → α → Ordering)
    (heq : ∀ x, tot_eq x x = true) (hcmp : ∀ x, tot_cmp x x = Ordering.eq)
    (ca : ChunkedArray α) (cc : CategoricalChunked α) (nc : NullChunked)
    (i : Nat) (b : Bool) (hca : i < caLen ca) (hcc : i < caLen cc.phys) :
    (intoTotalEqInner tot_eq ca).eq_element_unchecked i i = true ∧
    (intoTotalOrdInner tot_cmp ca).cmp_element_unchecked i i b = Ordering.eq ∧
    (catIntoTotalOrdInner tot_cmp cc).cmp_element_unchecked i i b = Ordering.eq ∧
    (nullIntoTotalEqInner nc).eq_element_unchecked i i = true ∧
    (nullIntoTotalOrdInner nc).cmp_element_unchecked i i b = Ordering.eq := by
  have hopt : ∀ o : Option α, optionTotEq tot_eq o o = true := by
    intro o; cases o <;> simp [optionTotEq, heq]
  have hord : ∀ o : Option α, nullOrderCmp tot_cmp o o b = Ordering.eq := by
    intro o; cases o <;> simp [nullOrderCmp, hcmp]
  refine ⟨?_, ?_, ?_, rfl, rfl⟩
  · rw [intoEq_spec tot_eq ca i i hca hca]; exact hopt _
  · rw [intoOrd_spec tot_cmp ca i i hca hca b]; exact hord _
  · rw [catIntoTotalOrdInner]
    by_cases hlex : cc.lexical = true
    · simp only [hlex, if_true]
      cases hgi : lexicalCategoricalGet cc i with
      | none => simp [mkOrdInner, hgi, nullOrderCmp]
      | some s => simp [mkOrdInner, hgi, nullOrderCmp, strTotCmp_refl]
    · have hlex' : cc.lexical = false := Bool.eq_false_iff.mpr hlex
      simp only [hlex', Bool.false_eq_true, if_false]
      rw [intoOrd_spec tot_cmp cc.phys i i hcc hcc b]; exact hord _

/-- Claim C8 witness: reflexivity at a null row of [null, 5, null, 3], at
a lexical categorical column, and at an all-null column of length 3. -/
theorem C8_witness :
    (intoTotalEqInner natTotEq caW).eq_element_unchecked 0 0 = true ∧
    (intoTotalOrdInner natTotCmp caW).cmp_element_unchecked 0 0 true = Ordering.eq ∧
    (catIntoTotalOrdInner natTotCmp ccW8).cmp_element_unchecked 0 0 true = Ordering.eq ∧
    (nullIntoTotalEqInner ⟨3⟩).eq_element_unchecked 0 0 = true ∧
    (nullIntoTotalOrdInner ⟨3⟩).cmp_element_unchecked 0 0 true = Ordering.eq :=
  C8_reflexivity natTotEq natTotCmp (fun x => by simp [natTotEq])
    (fun x => by simp [natTotCmp]) caW ccW8 ⟨3⟩ 0 true (by decide) (by decide)

/-- Claim C9 counterexample: a modelled Opaque node does not compare
equal to itself under the PartialEq implementation. -/
theorem C9_counterexample : beqFunctionIR udfW udfW = false := by decide

/-- Claim C9 (amended): FunctionIR equality is reflexive exactly on the
variants with a structural PartialEq arm (RowIndex, FastCount, Explode,
Unpivot, Rechunk); an Opaque, OpaquePython or Unnest value falls through
the catch-all arm and compares unequal to itself. -/
theorem C9_eq_reflexivity_amended (x : FunctionIR) :
    beqFunctionIR x x = hasEqArm x := by
  cases x <;> simp [beqFunctionIR, hasEqArm]

/-- Claim C10: two RowIndex nodes with equal names but different offsets
are deemed equal by PartialEq yet write different value sequences to the
hasher (the offset is hashed but not compared), so the Hash
implementation is not congruent with equality. -/
theorem C10_hash_eq_incongruence :
    beqFunctionIR (FunctionIR.rowIndex "idx" none 0)
      (FunctionIR.rowIndex "idx" (some 1) 0) = true ∧
    hashFunctionIR (FunctionIR.rowIndex "idx" none 0) ≠
      hashFunctionIR (FunctionIR.rowIndex "idx" (some 1) 0) := by
  decide
